import Mathlib

/-!
Verification of the search-and-ranking subsystem of the enhanced Dash
documentation server (`enhanced_dash_server.py`): the two-tier TTL cache
(`CacheManager`), the ranking engine (`FuzzySearchEngine`), the
schema-adaptive index query branches of `DashMCPServer.search_docset`,
the search coordinator's cache-key derivation and caching policy, and the
tool-level `limit` coercion in `call_tool`.

The embedding is shallow: each Python function is translated into an
executable Lean definition over explicit state.  Machine-level details are
modelled as follows: Python strings are Lean `String`s and case folding,
prefix and substring tests operate on their character lists; `time.time()`
values are integers; SQLite tables are lists of rows and `LIMIT n` is
`List.take n`; Python's stable `sorted(..., reverse=True)` is
`List.insertionSort` with a greater-or-equal relation (a stable sort);
`hashlib.md5(...).hexdigest()` is a full MD5 implementation over byte
lists.
-/

/-! ## Python string primitives -/

/-- Python `str.lower()`.  `Char.toLower` folds the ASCII range `A`-`Z`,
which matches CPython on ASCII text (docset symbol names and queries). -/
def pyLower (s : String) : String := String.mk (s.data.map Char.toLower)

/-- Python `s.startswith(p)`: `p` is a prefix of `s`. -/
def pyStartsWith (s p : String) : Bool := p.data.isPrefixOf s.data

/-- Python `needle in hay` for strings: substring containment. -/
def pyContains (hay needle : String) : Bool := decide (needle.data <:+: hay.data)

/-- Python truthiness of an optional string (`if x:`): `None` and the empty
string are falsy. -/
def pyTruthy : Option String → Bool
  | none => false
  | some s => !(s == "")

/-- Python `x or d` for an optional string `x`: the placeholder `d` replaces
both `None` and the empty string. -/
def pyOr (x : Option String) (d : String) : String :=
  match x with
  | none => d
  | some s => if s = "" then d else s

/-- Python `str()` of an optional string as it appears inside an f-string:
`None` prints as `"None"`. -/
def pyStrOpt : Option String → String
  | none => "None"
  | some s => s

/-- Python `str()` of a boolean inside an f-string. -/
def pyStrBool : Bool → String
  | true => "True"
  | false => "False"

/-! ## Data model

`DocEntry` mirrors the `@dataclass DocEntry` of the source: one
documentation symbol match.  `score` is an integer because every score the
ranking engine assigns is a sum of integer bonuses (heuristic mode) or an
integer similarity in `[0,100]` (fuzzy mode). -/

structure DocEntry where
  name : String
  type : String
  path : String
  docset : String
  content : Option String := none
  anchor : Option String := none
  score : Int := 0
deriving DecidableEq, Repr

instance : Inhabited DocEntry := ⟨{ name := "", type := "", path := "", docset := "" }⟩

/-! ## FuzzySearchEngine -/

namespace FuzzySearchEngine

/-- Ordering used to model Python's `sorted(entries, key=lambda x: x.score,
reverse=True)`: `a` may stand before `b` iff `a.score ≥ b.score`. -/
def scoreGe (a b : DocEntry) : Prop := b.score ≤ a.score

instance : DecidableRel scoreGe := fun a b => Int.decLe b.score a.score

instance : IsTotal DocEntry scoreGe := ⟨fun a b => le_total b.score a.score⟩

instance : IsTrans DocEntry scoreGe := ⟨fun _ _ _ hab hbc => le_trans hbc hab⟩

/-- Exact-match / substring tier of `rank_results`: the `if query_lower ==
name_lower: score += 100 / elif query_lower in name_lower: score += 50`
group (only the highest applicable of the two fires). -/
def exact_or_substring_bonus (query : String) (e : DocEntry) : Int :=
  if pyLower query = pyLower e.name then 100
  else if pyContains (pyLower e.name) (pyLower query) then 50
  else 0

/-- Independent `if name_lower.startswith(query_lower): score += 30` of
`rank_results`. -/
def prefix_bonus (query : String) (e : DocEntry) : Int :=
  if pyStartsWith (pyLower e.name) (pyLower query) then 30 else 0

/-- Fixed privileged type set of `rank_results`. -/
def privilegedTypes : List String := ["function", "method", "class"]

/-- Fixed popular-docset allow-list of `rank_results`. -/
def popularDocsets : List String := ["python", "javascript", "react", "nodejs"]

/-- Type-specific `+10` of `rank_results`. -/
def type_bonus (e : DocEntry) : Int :=
  if pyLower e.type ∈ privilegedTypes then 10 else 0

/-- Docset-popularity `+5` of `rank_results`. -/
def docset_bonus (e : DocEntry) : Int :=
  if pyLower e.docset ∈ popularDocsets then 5 else 0

/-- The score `rank_results` assigns to one entry: the source accumulates
`score` through the four bonus groups in order; addition makes the
accumulation explicit. -/
def rank_score (query : String) (e : DocEntry) : Int :=
  exact_or_substring_bonus query e + prefix_bonus query e
    + type_bonus e + docset_bonus e

/-- `FuzzySearchEngine.rank_results`: assign each entry its heuristic score
and sort descending by score (stable, as Python's `sorted`). -/
def rank_results (entries : List DocEntry) (query : String) : List DocEntry :=
  List.insertionSort scoreGe
    (entries.map (fun e => { e with score := rank_score query e }))

/-- Searchable string `f"{entry.name} {entry.type} {entry.docset}"` built by
`fuzzy_search` for each entry. -/
def searchable_string (e : DocEntry) : String :=
  e.name ++ " " ++ e.type ++ " " ++ e.docset

/-- Ordering for `(choice, score)` pairs, descending by score. -/
def pairGe (a b : String × Int) : Prop := b.2 ≤ a.2

instance : DecidableRel pairGe := fun a b => Int.decLe b.2 a.2

instance : IsTotal (String × Int) pairGe := ⟨fun a b => le_total b.2 a.2⟩

instance : IsTrans (String × Int) pairGe := ⟨fun _ _ _ hab hbc => le_trans hbc hab⟩

/-- Modelled from the spec: the external approximate string matcher
(`process.extract` of the fuzzywuzzy library, not part of this repository).
Per the spec it produces "a similarity score in [0,100] per entry" for the
query against every choice string, best matches first, capped at `limit`
results.  The scorer itself is the parameter `sim`. -/
def process_extract (sim : String → String → Int) (query : String)
    (choices : List String) (limit : Nat) : List (String × Int) :=
  (List.insertionSort pairGe (choices.map (fun c => (c, sim query c)))).take limit

/-- `FuzzySearchEngine.fuzzy_search`: an empty entry list returns `[]`
before the matcher is consulted; otherwise every match with score at or
above `threshold` is mapped back to an entry through
`searchable.index(match)` (the first index holding that string), its
`score` field is set, and the results are sorted descending by score. -/
def fuzzy_search (sim : String → String → Int) (query : String)
    (entries : List DocEntry) (threshold : Int := 60) : List DocEntry :=
  if entries.isEmpty then []
  else
    let searchable := entries.map searchable_string
    let pairs := process_extract sim query searchable entries.length
    let results := pairs.filterMap (fun ms =>
      if threshold ≤ ms.2 then
        some { entries.getD (searchable.indexOf ms.1) default with score := ms.2 }
      else none)
    List.insertionSort scoreGe results

end FuzzySearchEngine

/-! ## MD5 (`hashlib.md5(data.encode()).hexdigest()`)

`CacheManager._get_cache_key` digests the UTF-8 encoding of its input
string with MD5 and returns the 32-character lowercase hex digest.  The
implementation below follows RFC 1321 over `Nat` byte values with explicit
reduction modulo `2^32`. -/

/-- Round constants `K[i] = floor(2^32 * abs(sin(i+1)))` of MD5. -/
def md5K : List Nat :=
  [0xd76aa478, 0xe8c7b756, 0x242070db, 0xc1bdceee,
   0xf57c0faf, 0x4787c62a, 0xa8304613, 0xfd469501,
   0x698098d8, 0x8b44f7af, 0xffff5bb1, 0x895cd7be,
   0x6b901122, 0xfd987193, 0xa679438e, 0x49b40821,
   0xf61e2562, 0xc040b340, 0x265e5a51, 0xe9b6c7aa,
   0xd62f105d, 0x02441453, 0xd8a1e681, 0xe7d3fbc8,
   0x21e1cde6, 0xc33707d6, 0xf4d50d87, 0x455a14ed,
   0xa9e3e905, 0xfcefa3f8, 0x676f02d9, 0x8d2a4c8a,
   0xfffa3942, 0x8771f681, 0x6d9d6122, 0xfde5380c,
   0xa4beea44, 0x4bdecfa9, 0xf6bb4b60, 0xbebfbc70,
   0x289b7ec6, 0xeaa127fa, 0xd4ef3085, 0x04881d05,
   0xd9d4d039, 0xe6db99e5, 0x1fa27cf8, 0xc4ac5665,
   0xf4292244, 0x432aff97, 0xab9423a7, 0xfc93a039,
   0x655b59c3, 0x8f0ccc92, 0xffeff47d, 0x85845dd1,
   0x6fa87e4f, 0xfe2ce6e0, 0xa3014314, 0x4e0811a1,
   0xf7537e82, 0xbd3af235, 0x2ad7d2bb, 0xeb86d391]

/-- Per-round left-rotation amounts of MD5. -/
def md5S : List Nat :=
  [7,12,17,22,7,12,17,22,7,12,17,22,7,12,17,22,
   5,9,14,20,5,9,14,20,5,9,14,20,5,9,14,20,
   4,11,16,23,4,11,16,23,4,11,16,23,4,11,16,23,
   6,10,15,21,6,10,15,21,6,10,15,21,6,10,15,21]

/-- One word: `2^32`. -/
def w32 : Nat := 4294967296

/-- Left rotation of a 32-bit word. -/
def rotl32 (x c : Nat) : Nat :=
  ((x <<< c) % w32) ||| (x >>> (32 - c))

/-- UTF-8 encoding of one character (Python `str.encode()`). -/
def utf8Bytes (c : Char) : List Nat :=
  let n := c.toNat
  if n < 0x80 then [n]
  else if n < 0x800 then [0xC0 ||| (n >>> 6), 0x80 ||| (n &&& 0x3F)]
  else if n < 0x10000 then
    [0xE0 ||| (n >>> 12), 0x80 ||| ((n >>> 6) &&& 0x3F), 0x80 ||| (n &&& 0x3F)]
  else
    [0xF0 ||| (n >>> 18), 0x80 ||| ((n >>> 12) &&& 0x3F),
     0x80 ||| ((n >>> 6) &&& 0x3F), 0x80 ||| (n &&& 0x3F)]

/-- UTF-8 bytes of a string. -/
def strBytes (s : String) : List Nat := s.data.flatMap utf8Bytes

/-- The 8-byte little-endian bit-length trailer of MD5 padding. -/
def lenBytes64 (len : Nat) : List Nat :=
  (List.range 8).map (fun i => ((len * 8) >>> (8 * i)) % 256)

/-- MD5 padding: `0x80`, zeros to 56 mod 64, then the 64-bit length. -/
def md5Pad (msg : List Nat) : List Nat :=
  let zeros := (55 + 64 - (msg.length % 64)) % 64
  msg ++ [0x80] ++ List.replicate zeros 0 ++ lenBytes64 msg.length

/-- Little-endian 32-bit word `j` of a 64-byte chunk. -/
def leWord (chunk : List Nat) (j : Nat) : Nat :=
  chunk.getD (4*j) 0 + 256 * chunk.getD (4*j+1) 0 +
  65536 * chunk.getD (4*j+2) 0 + 16777216 * chunk.getD (4*j+3) 0

/-- One of the 64 MD5 rounds. -/
def md5Round (chunk : List Nat) (st : Nat × Nat × Nat × Nat) (i : Nat) :
    Nat × Nat × Nat × Nat :=
  let (a, b, c, d) := st
  let (f, g) :=
    if i < 16 then ((b &&& c) ||| (((b ^^^ (w32 - 1)) % w32) &&& d), i)
    else if i < 32 then
      ((d &&& b) ||| (((d ^^^ (w32 - 1)) % w32) &&& c), (5*i + 1) % 16)
    else if i < 48 then (b ^^^ c ^^^ d, (3*i + 5) % 16)
    else (c ^^^ ((b ||| ((d ^^^ (w32 - 1)) % w32)) % w32), (7*i) % 16)
  let f := (f + a + md5K.getD i 0 + leWord chunk g) % w32
  (d, (b + rotl32 f (md5S.getD i 0)) % w32, b, c)

/-- Process one 64-byte chunk. -/
def md5Chunk (st : Nat × Nat × Nat × Nat) (chunk : List Nat) :
    Nat × Nat × Nat × Nat :=
  let (a0, b0, c0, d0) := st
  let (a, b, c, d) := (List.range 64).foldl (md5Round chunk) st
  ((a0 + a) % w32, (b0 + b) % w32, (c0 + c) % w32, (d0 + d) % w32)

/-- Split a byte list into 64-byte chunks; the first argument is fuel (the
list length suffices), keeping the recursion structural so that concrete
digests reduce inside the kernel. -/
def toChunksAux : Nat → List Nat → List (List Nat)
  | 0, _ => []
  | _ + 1, [] => []
  | n + 1, l => l.take 64 :: toChunksAux n (l.drop 64)

/-- Lowercase hex digit. -/
def hexChar (n : Nat) : Char := "0123456789abcdef".data.getD n '0'

/-- Little-endian lowercase hex rendering of one 32-bit word. -/
def wordHex (x : Nat) : List Char :=
  (List.range 4).flatMap (fun i =>
    let byte := (x >>> (8 * i)) % 256
    [hexChar (byte / 16), hexChar (byte % 16)])

/-- MD5 hex digest of a string's UTF-8 bytes, as
`hashlib.md5(s.encode()).hexdigest()` returns it. -/
def md5Hex (s : String) : String :=
  let msg := md5Pad (strBytes s)
  let chunks := toChunksAux msg.length msg
  let (a, b, c, d) :=
    chunks.foldl md5Chunk (0x67452301, 0xefcdab89, 0x98badcfe, 0x10325476)
  String.mk (wordHex a ++ wordHex b ++ wordHex c ++ wordHex d)

/-! ## CacheManager

`CacheManager` keeps an in-process map `memory_cache` from key to
`(data, timestamp)` and one on-disk JSON file per key holding the same
pair; `cache_ttl` is fixed at 3600 seconds.  Both tiers are modelled as
partial maps from key strings; `time.time()` values are integers passed in
explicitly.  `get` returns the served value and the successor state (it
deletes a stale memory record and promotes a fresh disk record); `set`
writes memory unconditionally and disk best-effort — the flag `diskOk`
stands for whether the swallowed-on-failure disk write succeeded. -/

structure CacheState (α : Type) where
  memory_cache : String → Option (α × Int)
  disk_cache : String → Option (α × Int)

/-- The fixed TTL (`self.cache_ttl = 3600`). -/
def cache_ttl : Int := 3600

namespace CacheState

/-- The empty cache (fresh process, empty cache directory). -/
def empty {α : Type} : CacheState α :=
  { memory_cache := fun _ => none, disk_cache := fun _ => none }

/-- `CacheManager._get_cache_key`: MD5 hex digest of the data string. -/
def get_cache_key (data : String) : String := md5Hex data

/-- Disk half of `CacheManager.get`: if a disk record exists and is fresh,
promote it into memory (keeping its original timestamp) and return it;
otherwise return `None`.  A stale disk file is left in place. -/
def diskGet {α : Type} (s : CacheState α) (key : String) (now : Int) :
    Option α × CacheState α :=
  match s.disk_cache key with
  | some (data, ts) =>
    if now - ts < cache_ttl then
      (some data,
       { s with memory_cache :=
          fun k => if k = key then some (data, ts) else s.memory_cache k })
    else (none, s)
  | none => (none, s)

/-- `CacheManager.get`: memory first (serving a fresh record, deleting a
stale one), then the disk tier. -/
def get {α : Type} (s : CacheState α) (key : String) (now : Int) :
    Option α × CacheState α :=
  match s.memory_cache key with
  | some (data, ts) =>
    if now - ts < cache_ttl then (some data, s)
    else
      let s' : CacheState α :=
        { s with memory_cache :=
            fun k => if k = key then none else s.memory_cache k }
      diskGet s' key now
  | none => diskGet s key now

/-- `CacheManager.set`: write `(data, now)` into memory unconditionally and
into the disk tier when the best-effort file write succeeds (`diskOk`). -/
def set {α : Type} (s : CacheState α) (key : String) (data : α) (now : Int)
    (diskOk : Bool) : CacheState α :=
  { memory_cache := fun k => if k = key then some (data, now) else s.memory_cache k,
    disk_cache :=
      if diskOk then
        fun k => if k = key then some (data, now) else s.disk_cache k
      else s.disk_cache }

/-- A sequence of `get` calls (key and `time.time()` value each), threading
the cache state. -/
def applyGets {α : Type} (s : CacheState α) : List (String × Int) → CacheState α
  | [] => s
  | (k, t) :: rest => applyGets (CacheState.get s k t).2 rest

end CacheState

/-! ## SchemaAdapter: per-docset index queries in `search_docset`

SQLite tables are lists of rows; `WHERE name LIKE '%query%'` is an
ASCII-case-insensitive substring match (SQLite's default `LIKE` folds the
ASCII range only, like `pyLower`), and `LIMIT n` is `List.take n`.  A SQL
`NULL` column is `Option.none`; `NULL LIKE ...` is not true, so rows with
a null name never match. -/

/-- SQLite `name LIKE '%q%'` (default ASCII-case-insensitive matching,
`%`/`_` wildcards inside `q` not modelled — no claim exercises them). -/
def likeMatch (name q : String) : Bool := pyContains (pyLower name) (pyLower q)

/-- `LIKE` on a nullable column: a `NULL` name never matches. -/
def likeMatchOpt (name : Option String) (q : String) : Bool :=
  match name with
  | none => false
  | some s => likeMatch s q

/-- One row of the traditional `searchIndex` table.  When the table lacks
the `anchor` column the query returns 3-tuples; `hasAnchor` on the database
records the column's presence. -/
structure SIRow where
  name : String
  type : String
  path : String
  anchor : Option String := none
deriving DecidableEq, Repr

/-- A docset database in the traditional search-index layout. -/
structure SearchIndexDB where
  hasAnchor : Bool
  rows : List SIRow
deriving DecidableEq, Repr

/-- `SELECT ... FROM searchIndex WHERE name LIKE ? LIMIT ?`. -/
def searchIndexSQL (db : SearchIndexDB) (q : String) (cap : Nat) : List SIRow :=
  (db.rows.filter (fun r => likeMatch r.name q)).take cap

/-- The searchIndex branch of `search_docset` phase 3: the query is issued
with `search_limit = limit * 2`; each row becomes a `DocEntry`, with
`anchor = row[3] if len(row) > 3 else None` (3-tuples when the column is
absent). -/
def searchIndexBranch (docsetName : String) (db : SearchIndexDB) (q : String)
    (limit : Nat) : List DocEntry :=
  (searchIndexSQL db q (limit * 2)).map (fun r =>
    { name := r.name, type := r.type, path := r.path, docset := docsetName,
      anchor := if db.hasAnchor then r.anchor else none })

/-- One row of the Core Data (`ZTOKEN`) table as the join query sees it:
`ztype` is `tt.ZTYPENAME` resolved through the `LEFT JOIN` on `ZTOKENTYPE`
(`none` when the join finds no type row), `name` is `ZTOKENNAME` and
`path` is `ZPATH`, each nullable. -/
structure ZRow where
  name : Option String
  ztype : Option String
  path : Option String
deriving DecidableEq, Repr

/-- The Core Data `JOIN` query: `WHERE t.ZTOKENNAME LIKE ? LIMIT ?`. -/
def coreDataJoinSQL (rows : List ZRow) (q : String) (cap : Nat) : List ZRow :=
  (rows.filter (fun r => likeMatchOpt r.name q)).take cap

/-- The Core Data join branch: issued with `search_limit = limit * 2`; rows
whose name is not truthy (`if row[0]:`) are discarded, `type` is
`row[1] or "Unknown"` and `path` is `row[2] or ""`. -/
def coreDataJoinBranch (docsetName : String) (rows : List ZRow) (q : String)
    (limit : Nat) : List DocEntry :=
  (coreDataJoinSQL rows q (limit * 2)).filterMap (fun r =>
    match r.name with
    | some nm =>
      if nm == "" then none
      else some { name := nm, type := pyOr r.ztype "Unknown",
                  path := pyOr r.path "", docset := docsetName }
    | none => none)

/-- The fallback query `SELECT ZTOKENNAME, ZPATH FROM ZTOKEN WHERE
ZTOKENNAME LIKE ? LIMIT ?`: the source binds `limit` here, not
`limit * 2`. -/
def coreDataFallbackSQL (rows : List ZRow) (q : String) (cap : Nat) : List ZRow :=
  (rows.filter (fun r => likeMatchOpt r.name q)).take cap

/-- The Core Data fallback branch: every produced entry carries the fixed
placeholder type `"Unknown"`; rows whose name is not truthy are
discarded. -/
def coreDataFallbackBranch (docsetName : String) (rows : List ZRow) (q : String)
    (limit : Nat) : List DocEntry :=
  (coreDataFallbackSQL rows q limit).filterMap (fun r =>
    match r.name with
    | some nm =>
      if nm == "" then none
      else some { name := nm, type := "Unknown",
                  path := pyOr r.path "", docset := docsetName }
    | none => none)

/-- The Core Data dispatch: the join query is tried first; on a
`sqlite3.Error` (`joinFails`) the fallback query runs, and if that also
fails (`fallbackFails`) the docset contributes nothing. -/
def coreDataBranch (docsetName : String) (rows : List ZRow) (q : String)
    (limit : Nat) (joinFails fallbackFails : Bool) : List DocEntry :=
  if joinFails then
    if fallbackFails then []
    else coreDataFallbackBranch docsetName rows q limit
  else coreDataJoinBranch docsetName rows q limit

/-! ## Search coordinator (`DashMCPServer.search_docset`) -/

/-- The schema situation of one docset's database, as phase 3 detects it:
the traditional layout, the Core Data layout (with the per-invocation
database-error flags), an unrecognized table set, or a connection/schema
error — the latter two contribute zero entries. -/
inductive DocsetDB where
  | searchIndex (db : SearchIndexDB)
  | coreData (rows : List ZRow) (joinFails fallbackFails : Bool)
  | unknownSchema
  | dbError
deriving DecidableEq, Repr

/-- One catalog entry of `get_available_docsets` with the fields the search
loop reads. -/
structure DocsetEntry where
  name : String
  db : DocsetDB
deriving DecidableEq, Repr

/-- One docset's contribution to `all_entries` in phase 3. -/
def docsetSearch (q : String) (limit : Nat) (d : DocsetEntry) : List DocEntry :=
  match d.db with
  | .searchIndex db => searchIndexBranch d.name db q limit
  | .coreData rows jf ff => coreDataBranch d.name rows q limit jf ff
  | .unknownSchema => []
  | .dbError => []

/-- The f-string `f"{query}_{docset_name}_{limit}_{include_content}"` whose
digest is the search cache key (phase 1 of `search_docset`). -/
def search_key_data (query : String) (docset_name : Option String)
    (limit : Nat) (include_content : Bool) : String :=
  query ++ "_" ++ pyStrOpt docset_name ++ "_" ++ toString limit ++ "_"
    ++ pyStrBool include_content

/-- The cache key `search_docset` derives.  All five search parameters are
in scope at the call site; the f-string passed to `_get_cache_key` mentions
`query`, `docset_name`, `limit` and `include_content` only. -/
def search_cache_key (query : String) (docset_name : Option String)
    (limit : Nat) (include_content : Bool) (use_fuzzy : Bool) : String :=
  CacheState.get_cache_key (search_key_data query docset_name limit include_content)

/-- One result record of phase 7: the dict holds `docset`, `name`, `type`,
`path` and `score` always, and an `anchor`/`content` key only when the
entry's field is truthy (`none` models an absent key). -/
structure ResultRecord where
  docset : String
  name : String
  type : String
  path : String
  score : Int
  anchor : Option String
  content : Option String
deriving DecidableEq, Repr

/-- Phase 7 record construction for one entry. -/
def toRecord (e : DocEntry) : ResultRecord :=
  { docset := e.docset, name := e.name, type := e.type, path := e.path,
    score := e.score,
    anchor := if pyTruthy e.anchor then e.anchor else none,
    content := if pyTruthy e.content then e.content else none }

/-- `_add_content_to_entries`: the extraction collaborator may produce text
for an entry (`extractor`), and `entry.content` is assigned only when the
produced text is non-empty (`if content:`); every failure path leaves the
entry untouched. -/
def add_content (extractor : DocEntry → Option String)
    (entries : List DocEntry) : List DocEntry :=
  entries.map (fun e =>
    match extractor e with
    | some c => if c == "" then e else { e with content := some c }
    | none => e)

/-- One invocation of `search_docset`: the caller's five parameters plus
the per-invocation environment — the clock value, whether the best-effort
disk cache write succeeds, the docset catalog `get_available_docsets`
resolves, the external fuzzy scorer and the content extractor. -/
structure SearchInv where
  query : String
  docset_name : Option String
  limit : Nat
  include_content : Bool
  use_fuzzy : Bool
  now : Int
  diskOk : Bool
  docsets : List DocsetEntry
  sim : String → String → Int
  extractor : DocEntry → Option String

/-- Phases 2-8 of `search_docset` (after the cache check missed or was
bypassed): resolve docsets — `if docset_name:` treats an empty name as no
filter, and an unknown docset name returns `[]` without caching; query each
docset; cache `[]` and return when nothing accumulated; rank (fuzzy or
heuristic); truncate to `limit`; extract content when requested; format
records; cache the records only when `include_content` is false. -/
def search_docset_fresh (cache1 : CacheState (List ResultRecord)) (key : String)
    (inv : SearchInv) : List ResultRecord × CacheState (List ResultRecord) :=
  let filterName : Option String :=
    match inv.docset_name with
    | some nm => if nm == "" then none else some nm
    | none => none
  let docsets : List DocsetEntry :=
    match filterName with
    | some nm => inv.docsets.filter (fun d => pyLower d.name == pyLower nm)
    | none => inv.docsets
  if filterName.isSome && docsets.isEmpty then ([], cache1)
  else
    let all_entries := docsets.flatMap (docsetSearch inv.query inv.limit)
    if all_entries.isEmpty then
      ([], CacheState.set cache1 key [] inv.now inv.diskOk)
    else
      let ranked :=
        if inv.use_fuzzy then
          FuzzySearchEngine.fuzzy_search inv.sim inv.query all_entries 60
        else
          FuzzySearchEngine.rank_results all_entries inv.query
      let limited := ranked.take inv.limit
      let enriched :=
        if inv.include_content then add_content inv.extractor limited else limited
      let results := enriched.map toRecord
      if inv.include_content then (results, cache1)
      else (results, CacheState.set cache1 key results inv.now inv.diskOk)

/-- `DashMCPServer.search_docset`: phase 1 checks the cache — a hit serves
the cached records only when the cached value is truthy (a non-empty list)
and `include_content` is false — then the fresh-search phases run. -/
def search_docset (cache : CacheState (List ResultRecord)) (inv : SearchInv) :
    List ResultRecord × CacheState (List ResultRecord) :=
  let key := search_cache_key inv.query inv.docset_name inv.limit
    inv.include_content inv.use_fuzzy
  let looked := CacheState.get cache key inv.now
  match looked.1 with
  | some v =>
    if !v.isEmpty && !inv.include_content then (v, looked.2)
    else search_docset_fresh looked.2 key inv
  | none => search_docset_fresh looked.2 key inv

/-- A sequence of `search_docset` invocations against one server process:
the response log pairs each invocation's `include_content` flag with its
response. -/
def run_search_docset (cache : CacheState (List ResultRecord)) :
    List SearchInv → List (Bool × List ResultRecord) × CacheState (List ResultRecord)
  | [] => ([], cache)
  | inv :: rest =>
    let r := search_docset cache inv
    let acc := run_search_docset r.2 rest
    ((inv.include_content, r.1) :: acc.1, acc.2)

/-! ## Tool-level limit coercion (`call_tool`, tool `search_dash_docs`) -/

/-- A JSON-borne Python value as the `limit` argument can arrive: an
integer, a float (modelled as the decimal `num / 10^exp`), a string, or
`None`. -/
inductive PyVal where
  | int (n : Int)
  | float (num : Int) (exp : Nat)
  | str (s : String)
  | none
deriving DecidableEq, Repr

/-- Digit run to a number. -/
def digitsToNat (cs : List Char) : Nat :=
  cs.foldl (fun a c => 10 * a + (c.toNat - 48)) 0

/-- Unsigned decimal: digits, optionally a point and more digits, at least
one digit overall (`"5"`, `"5.7"`, `"5."`, `".7"`). -/
def parseUnsigned (cs : List Char) : Option (Int × Nat) :=
  let ip := cs.takeWhile (·.isDigit)
  let rest := cs.dropWhile (·.isDigit)
  match rest with
  | [] => if ip.isEmpty then none else some ((digitsToNat ip : Int), 0)
  | '.' :: fp =>
    if fp.all (·.isDigit) && !(ip.isEmpty && fp.isEmpty) then
      some ((digitsToNat (ip ++ fp) : Int), fp.length)
    else none
  | _ => none

/-- Python `float(s)` on a string: an optional sign then an unsigned
decimal; anything else raises `ValueError` (`none` here).  Exponents,
`inf`/`nan` and surrounding whitespace are accepted by CPython but not
exercised by any claim, so they are left unmodelled (they do not affect
`"bad"`, which fails in both). -/
def pyFloatOfString (s : String) : Option (Int × Nat) :=
  match s.data with
  | '+' :: rest => parseUnsigned rest
  | '-' :: rest => (parseUnsigned rest).map (fun p => (-p.1, p.2))
  | cs => parseUnsigned cs

/-- Python `float(raw)`: numbers convert, strings parse, `None` raises
`TypeError` (`none`). -/
def pyFloat : PyVal → Option (Int × Nat)
  | .int n => some (n, 0)
  | .float num exp => some (num, exp)
  | .str s => pyFloatOfString s
  | .none => Option.none

/-- Python `int(x)` on a decimal `num / 10^exp`: truncation toward zero. -/
def pyIntTrunc (p : Int × Nat) : Int := Int.tdiv p.1 ((10 : Int) ^ p.2)

/-- The `limit` handling of `call_tool` for `search_dash_docs`:
`raw_limit = arguments.get("limit", 20)`, then `limit = int(float(raw_limit))`
— a `TypeError`/`ValueError` is re-raised as the caller-input error
`"limit must be an integer"` — then `limit = max(1, min(100, limit))`. -/
def call_tool_limit (args_limit : Option PyVal) : Except String Int :=
  let raw := args_limit.getD (PyVal.int 20)
  match pyFloat raw with
  | some p => .ok (max 1 (min 100 (pyIntTrunc p)))
  | Option.none => .error "limit must be an integer"

/-! ## Concrete sample inputs and invariant predicates

Sample entries and scorers used by the concrete counterexamples and
witnesses below, and the invariant predicates of the cache proofs. -/

/-- Sample entry for the C2 witness: name matches query `"Map"`
case-insensitively, privileged type, popular docset. -/
def mapEntry : DocEntry := { name := "map", type := "Class", path := "p", docset := "python" }

/-- Sample entry for C3: `"fetchData"` starts with query `"fetch"` but is
not equal to it; no type or docset bonus applies. -/
def fetchEntry : DocEntry := { name := "fetchData", type := "Guide", path := "p", docset := "alpha" }

/-- Two Core Data rows both matching the query `"a"`. -/
def zRowsAB : List ZRow :=
  [{ name := some "alpha", ztype := none, path := some "p1" },
   { name := some "beta", ztype := none, path := some "p2" }]

/-- Concrete scorer for the C8 counterexample and witness: full similarity
when the query occurs in the choice string, zero otherwise — one score in
`[0,100]` per choice, as the matcher contract requires. -/
def simSubstr (q c : String) : Int := if pyContains c q then 100 else 0

/-- Two distinct entries sharing one searchable string (same name, type
and docset, different paths). -/
def dupE1 : DocEntry := { name := "a", type := "t", path := "p1", docset := "d" }

/-- Companion of `dupE1` differing only in `path`. -/
def dupE2 : DocEntry := { name := "a", type := "t", path := "p2", docset := "d" }

/-- Invariant tying a key to its original write: the disk record for `k`
is `(v, T)` and the memory record is absent or exactly `(v, T)`. -/
def CacheState.goodAt {α : Type} (s : CacheState α) (k : String) (v : α)
    (T : Int) : Prop :=
  s.disk_cache k = some (v, T)
    ∧ (s.memory_cache k = none ∨ s.memory_cache k = some (v, T))

/-- A search payload free of content: every record's `content` key is
absent. -/
def contentFreeList (v : List ResultRecord) : Prop :=
  ∀ r ∈ v, r.content = none

/-- Every payload stored in either cache tier is content-free. -/
def contentFreeCache (c : CacheState (List ResultRecord)) : Prop :=
  (∀ k p, c.memory_cache k = some p → contentFreeList p.1)
    ∧ (∀ k p, c.disk_cache k = some p → contentFreeList p.1)

/-! ## Embedding lemmas: string primitives and MD5 test vectors -/

theorem pyContains_eq_true_iff {hay needle : String} :
    pyContains hay needle = true ↔ needle.data <:+: hay.data := by
  simp [pyContains]

theorem pyStartsWith_eq_true_iff {s p : String} :
    pyStartsWith s p = true ↔ p.data <+: s.data := by
  simp [pyStartsWith, List.isPrefixOf_iff_prefix]

theorem pyStartsWith_self (s : String) : pyStartsWith s s = true :=
  pyStartsWith_eq_true_iff.mpr List.prefix_rfl

theorem pyContains_of_pyStartsWith {s p : String}
    (h : pyStartsWith s p = true) : pyContains s p = true :=
  pyContains_eq_true_iff.mpr (pyStartsWith_eq_true_iff.mp h).isInfix

/-- RFC 1321 test vector, checking the MD5 embedding. -/
theorem md5Hex_abc : md5Hex "abc" = "900150983cd24fb0d6963f7d28e17f72" := by
  decide

set_option maxRecDepth 4000 in
/-- Second RFC 1321 test vector (an 80-byte message, exercising the
two-chunk padding path). -/
theorem md5Hex_eighty_digits :
    md5Hex "12345678901234567890123456789012345678901234567890123456789012345678901234567890"
      = "57edf4a22be3c955ac49da2e2107b67a" := by
  decide

/-! ## Shared ranking lemmas -/

theorem type_bonus_nonneg (e : DocEntry) : 0 ≤ FuzzySearchEngine.type_bonus e := by
  unfold FuzzySearchEngine.type_bonus
  split <;> norm_num

theorem docset_bonus_nonneg (e : DocEntry) : 0 ≤ FuzzySearchEngine.docset_bonus e := by
  unfold FuzzySearchEngine.docset_bonus
  split <;> norm_num

theorem mem_rank_results {entries : List DocEntry} {e : DocEntry} (query : String)
    (he : e ∈ entries) :
    { e with score := FuzzySearchEngine.rank_score query e }
      ∈ FuzzySearchEngine.rank_results entries query := by
  unfold FuzzySearchEngine.rank_results
  rw [List.Perm.mem_iff (List.perm_insertionSort _ _)]
  exact List.mem_map_of_mem _ he

/-! ## C1: search cache key derivation -/

/-- C1 counterexample: the claim says two invocations differing in any one
of the five parameters never derive the same cache key, but two
invocations identical except for `use_fuzzy` (here `true` vs `false`)
derive the same key, because the key data f-string omits `use_fuzzy`. -/
theorem c1_use_fuzzy_shares_cache_key :
    search_cache_key "requests" (some "Python") 20 false true
      = search_cache_key "requests" (some "Python") 20 false false
    ∧ (true : Bool) ≠ false := ⟨rfl, by decide⟩

/-- C1 amended: the cache key is the MD5 digest of the canonical string
form of only four of the five parameters — `query`, `docset_name`,
`limit`, `include_content`; `use_fuzzy` is not part of the key data, so
any two invocations that differ only in `use_fuzzy` derive the same key,
while each of the four included parameters does change the key (checked at
concrete inputs). -/
theorem c1_cache_key_from_four_params (q : String) (d : Option String)
    (l : Nat) (c f f' : Bool) :
    search_cache_key q d l c f
        = CacheState.get_cache_key (search_key_data q d l c)
    ∧ search_cache_key q d l c f = search_cache_key q d l c f'
    ∧ search_cache_key "a" none 1 false true ≠ search_cache_key "b" none 1 false true
    ∧ search_cache_key "a" none 1 false true ≠ search_cache_key "a" (some "x") 1 false true
    ∧ search_cache_key "a" none 1 false true ≠ search_cache_key "a" none 2 false true
    ∧ search_cache_key "a" none 1 false true ≠ search_cache_key "a" none 1 true true := by
  refine ⟨rfl, rfl, ?_, ?_, ?_, ?_⟩ <;> decide

/-! ## C2: exact-match scoring -/

/-- C2: in heuristic mode an entry whose name equals the query
case-insensitively scores exactly `130` plus the type/docset bonuses —
hence at least `130` — the `+100` exact tier fires (never the `+50`
substring tier, which is behind `elif`), the prefix `+30` always stacks,
and the entry enters the ranked output with that score. -/
theorem c2_exact_match_scores_at_least_130 (query : String)
    (entries : List DocEntry) (e : DocEntry) (he : e ∈ entries)
    (h : pyLower query = pyLower e.name) :
    FuzzySearchEngine.rank_score query e
        = 130 + FuzzySearchEngine.type_bonus e + FuzzySearchEngine.docset_bonus e
    ∧ 130 ≤ FuzzySearchEngine.rank_score query e
    ∧ FuzzySearchEngine.exact_or_substring_bonus query e = 100
    ∧ { e with score := FuzzySearchEngine.rank_score query e }
        ∈ FuzzySearchEngine.rank_results entries query := by
  have hpre : pyStartsWith (pyLower e.name) (pyLower query) = true := by
    rw [h]; exact pyStartsWith_self _
  have h1 : FuzzySearchEngine.exact_or_substring_bonus query e = 100 := by
    simp [FuzzySearchEngine.exact_or_substring_bonus, h]
  have h2 : FuzzySearchEngine.prefix_bonus query e = 30 := by
    simp [FuzzySearchEngine.prefix_bonus, hpre]
  have hscore : FuzzySearchEngine.rank_score query e
      = 130 + FuzzySearchEngine.type_bonus e + FuzzySearchEngine.docset_bonus e := by
    unfold FuzzySearchEngine.rank_score
    rw [h1, h2]; ring
  refine ⟨hscore, ?_, h1, mem_rank_results query he⟩
  have := type_bonus_nonneg e
  have := docset_bonus_nonneg e
  omega

/-- C2 witness: the theorem applied to query `"Map"` and the concrete
entry `mapEntry` inside a one-entry list. -/
theorem c2_witness :
    FuzzySearchEngine.rank_score "Map" mapEntry
        = 130 + FuzzySearchEngine.type_bonus mapEntry
          + FuzzySearchEngine.docset_bonus mapEntry
    ∧ 130 ≤ FuzzySearchEngine.rank_score "Map" mapEntry
    ∧ FuzzySearchEngine.exact_or_substring_bonus "Map" mapEntry = 100
    ∧ { mapEntry with score := FuzzySearchEngine.rank_score "Map" mapEntry }
        ∈ FuzzySearchEngine.rank_results [mapEntry] "Map" :=
  c2_exact_match_scores_at_least_130 "Map" [mapEntry] mapEntry (by decide) (by decide)

/-! ## C3: prefix-but-not-exact scoring -/

/-- C3 counterexample: the claim says a prefix-but-not-exact entry scores
exactly `30` plus bonuses, but `"fetchData"` against query `"fetch"` (no
type/docset bonus) scores `80`: the query is also a substring of the name,
so the `elif` substring tier awards `+50` and the independent prefix check
adds `+30`. -/
theorem c3_prefix_scores_80_not_30 :
    pyStartsWith (pyLower fetchEntry.name) (pyLower "fetch") = true
    ∧ pyLower "fetch" ≠ pyLower fetchEntry.name
    ∧ FuzzySearchEngine.type_bonus fetchEntry = 0
    ∧ FuzzySearchEngine.docset_bonus fetchEntry = 0
    ∧ FuzzySearchEngine.rank_score "fetch" fetchEntry = 80
    ∧ (80 : Int) ≠ 30 := by decide

/-- C3 amended: an entry whose name starts with the query
(case-insensitively) but is not exactly equal to it scores exactly `80`
plus any applicable type and docset bonuses — the `+50` substring tier
fires (a proper prefix is a substring) and stacks with the independent
`+30` prefix bonus — and the entry enters the ranked output with that
score. -/
theorem c3_prefix_not_exact_scores_80_plus_bonuses (query : String)
    (entries : List DocEntry) (e : DocEntry) (he : e ∈ entries)
    (hpre : pyStartsWith (pyLower e.name) (pyLower query) = true)
    (hne : pyLower query ≠ pyLower e.name) :
    FuzzySearchEngine.rank_score query e
        = 80 + FuzzySearchEngine.type_bonus e + FuzzySearchEngine.docset_bonus e
    ∧ { e with score := FuzzySearchEngine.rank_score query e }
        ∈ FuzzySearchEngine.rank_results entries query := by
  have hsub : pyContains (pyLower e.name) (pyLower query) = true :=
    pyContains_of_pyStartsWith hpre
  have h1 : FuzzySearchEngine.exact_or_substring_bonus query e = 50 := by
    simp [FuzzySearchEngine.exact_or_substring_bonus, hne, hsub]
  have h2 : FuzzySearchEngine.prefix_bonus query e = 30 := by
    simp [FuzzySearchEngine.prefix_bonus, hpre]
  constructor
  · unfold FuzzySearchEngine.rank_score
    rw [h1, h2]; ring
  · exact mem_rank_results query he

/-- C3 witness: the amended theorem applied to query `"fetch"` and the
concrete entry `fetchEntry`. -/
theorem c3_witness :
    FuzzySearchEngine.rank_score "fetch" fetchEntry
        = 80 + FuzzySearchEngine.type_bonus fetchEntry
          + FuzzySearchEngine.docset_bonus fetchEntry
    ∧ { fetchEntry with score := FuzzySearchEngine.rank_score "fetch" fetchEntry }
        ∈ FuzzySearchEngine.rank_results [fetchEntry] "fetch" :=
  c3_prefix_not_exact_scores_80_plus_bonuses "fetch" [fetchEntry] fetchEntry
    (by decide) (by decide) (by decide)

/-! ## C4: per-docset row caps -/

/-- C4 counterexample: with `limit = 1` and two matching rows, the
token-store fallback path yields one entry — its query is issued with row
cap `limit`, not `limit * 2` — while the join query's cap `limit * 2`
admits two rows. -/
theorem c4_fallback_cap_is_limit :
    (coreDataBranch "d" zRowsAB "a" 1 true false).length = 1
    ∧ (coreDataJoinSQL zRowsAB "a" (1 * 2)).length = 2
    ∧ (1 : Nat) ≠ 2 := by decide

/-- C4 amended: the search-index query and the token-store join query are
issued with row cap `limit * 2`; the token-store fallback query is issued
with row cap `limit`.  Each query returns `min cap matchCount` rows. -/
theorem c4_row_caps (db : SearchIndexDB) (rows : List ZRow) (d q : String)
    (limit : Nat) :
    (searchIndexSQL db q (limit * 2)).length
        = min (limit * 2) ((db.rows.filter (fun r => likeMatch r.name q)).length)
    ∧ searchIndexBranch d db q limit
        = (searchIndexSQL db q (limit * 2)).map (fun r =>
            { name := r.name, type := r.type, path := r.path, docset := d,
              anchor := if db.hasAnchor then r.anchor else none })
    ∧ (coreDataJoinSQL rows q (limit * 2)).length
        = min (limit * 2) ((rows.filter (fun r => likeMatchOpt r.name q)).length)
    ∧ (coreDataFallbackSQL rows q limit).length
        = min limit ((rows.filter (fun r => likeMatchOpt r.name q)).length)
    ∧ coreDataBranch d rows q limit true false = coreDataFallbackBranch d rows q limit := by
  refine ⟨?_, rfl, ?_, ?_, rfl⟩ <;>
    simp [searchIndexSQL, coreDataJoinSQL, coreDataFallbackSQL, List.length_take]

/-! ## C6: tool-level limit coercion -/

/-- C6: every accepted `limit` lands in `[1, 100]`, and the four probe
inputs behave as specified: `0` clamps to `1`, `-10` clamps to `1`,
`"bad"` is rejected with the caller-input error, `5.7` truncates to `5`. -/
theorem c6_limit_coercion (raw : PyVal) (l : Int)
    (h : call_tool_limit (some raw) = .ok l) :
    (1 ≤ l ∧ l ≤ 100)
    ∧ call_tool_limit (some (.int 0)) = .ok 1
    ∧ call_tool_limit (some (.int (-10))) = .ok 1
    ∧ call_tool_limit (some (.str "bad")) = .error "limit must be an integer"
    ∧ call_tool_limit (some (.float 57 1)) = .ok 5 := by
  refine ⟨?_, rfl, rfl, rfl, rfl⟩
  simp only [call_tool_limit, Option.getD_some] at h
  split at h
  · next p _ =>
    simp only [Except.ok.injEq] at h
    subst h
    refine ⟨le_max_left 1 _, ?_⟩
    exact max_le (by norm_num) (min_le_left _ _)
  · exact absurd h (by simp)

/-- C6 witness: the theorem applied to the accepted input `0`, whose
clamped value `1` lies in `[1, 100]`. -/
theorem c6_witness :
    ((1 : Int) ≤ 1 ∧ (1 : Int) ≤ 100)
    ∧ call_tool_limit (some (.int 0)) = .ok 1
    ∧ call_tool_limit (some (.int (-10))) = .ok 1
    ∧ call_tool_limit (some (.str "bad")) = .error "limit must be an integer"
    ∧ call_tool_limit (some (.float 57 1)) = .ok 5 :=
  c6_limit_coercion (.int 0) 1 rfl

/-! ## C7: token-store fallback and null-name handling -/

theorem coreData_row_origin {rows : List ZRow} {q : String} {cap : Nat}
    {f : ZRow → Option DocEntry}
    (hf : ∀ r e, f r = some e → ∃ nm, r.name = some nm ∧ nm ≠ "" ∧ e.name = nm)
    {e : DocEntry}
    (he : e ∈ ((rows.filter (fun r => likeMatchOpt r.name q)).take cap).filterMap f) :
    ∃ r ∈ rows, r.name = some e.name ∧ e.name ≠ "" := by
  obtain ⟨r, hr, hfr⟩ := List.mem_filterMap.mp he
  have hrows : r ∈ rows := (List.mem_filter.mp (List.mem_of_mem_take hr)).1
  obtain ⟨nm, hnm, hne, hen⟩ := hf r e hfr
  subst hen
  exact ⟨r, hrows, hnm, hne⟩

/-- C7: when the join query fails at the database level and the fallback
succeeds, the docset's entries are exactly the fallback query's (and a
double failure contributes nothing); every fallback entry carries the
fixed placeholder type `"Unknown"`; and in the join path as in the
fallback path every produced entry originates from a row whose name is
non-null (and non-empty) — null-name rows are discarded. -/
theorem c7_fallback_unknown_and_null_names_discarded (d q : String)
    (rows : List ZRow) (limit : Nat) :
    coreDataBranch d rows q limit true false = coreDataFallbackBranch d rows q limit
    ∧ coreDataBranch d rows q limit true true = []
    ∧ (∀ e ∈ coreDataFallbackBranch d rows q limit, e.type = "Unknown")
    ∧ (∀ e ∈ coreDataFallbackBranch d rows q limit,
        ∃ r ∈ rows, r.name = some e.name ∧ e.name ≠ "")
    ∧ (∀ e ∈ coreDataJoinBranch d rows q limit,
        ∃ r ∈ rows, r.name = some e.name ∧ e.name ≠ "") := by
  refine ⟨rfl, rfl, ?_, ?_, ?_⟩
  · intro e he
    obtain ⟨r, _, hfr⟩ := List.mem_filterMap.mp he
    cases hn : r.name with
    | none => rw [hn] at hfr; simp at hfr
    | some nm =>
      rw [hn] at hfr
      by_cases hnm : nm = ""
      · subst hnm; simp at hfr
      · simp only [hnm, if_neg, beq_iff_eq, if_false, Option.some.injEq] at hfr
        subst hfr
        rfl
  · apply coreData_row_origin
    intro r e hfr
    cases hn : r.name with
    | none => rw [hn] at hfr; simp at hfr
    | some nm =>
      rw [hn] at hfr
      by_cases hnm : nm = ""
      · subst hnm; simp at hfr
      · simp only [hnm, if_neg, beq_iff_eq, if_false, Option.some.injEq] at hfr
        subst hfr
        exact ⟨nm, rfl, hnm, rfl⟩
  · apply coreData_row_origin
    intro r e hfr
    cases hn : r.name with
    | none => rw [hn] at hfr; simp at hfr
    | some nm =>
      rw [hn] at hfr
      by_cases hnm : nm = ""
      · subst hnm; simp at hfr
      · simp only [hnm, if_neg, beq_iff_eq, if_false, Option.some.injEq] at hfr
        subst hfr
        exact ⟨nm, rfl, hnm, rfl⟩

/-! ## C5: cache TTL round trip -/

/-- C5: a record written at time `T` by `set` is returned by `get` at time
`T + Δ` exactly when `Δ < TTL` (3600), whether or not the best-effort disk
write succeeded, provided every pre-existing disk record for the key was
written no later than `T` (writes happen in time order). -/
theorem c5_set_get_ttl {α : Type} (s : CacheState α) (k : String) (v : α)
    (T Δ : Int) (diskOk : Bool)
    (hdisk : ∀ p, s.disk_cache k = some p → p.2 ≤ T) :
    (CacheState.get (CacheState.set s k v T diskOk) k (T + Δ)).1
      = if Δ < cache_ttl then some v else none := by
  have hsub : T + Δ - T = Δ := by ring
  by_cases hΔ : Δ < cache_ttl
  · simp [CacheState.get, CacheState.set, hsub, hΔ]
  · cases diskOk with
    | true =>
      simp [CacheState.get, CacheState.set, CacheState.diskGet, hsub, hΔ]
    | false =>
      cases hd : s.disk_cache k with
      | none =>
        simp [CacheState.get, CacheState.set, CacheState.diskGet, hsub, hΔ, hd]
      | some p =>
        obtain ⟨pv, pt⟩ := p
        have hp : pt ≤ T := by simpa using hdisk (pv, pt) hd
        have hstale : ¬ (T + Δ - pt < cache_ttl) := by
          unfold cache_ttl at hΔ ⊢; omega
        simp [CacheState.get, CacheState.set, CacheState.diskGet, hsub, hΔ, hd, hstale]

/-- C5 witness: a fresh write into the empty cache at time `0` is served
at time `10`, inside the TTL. -/
theorem c5_witness :
    (CacheState.get (CacheState.set (CacheState.empty (α := String)) "k" "v" 0 true)
        "k" (0 + 10)).1
      = if (10 : Int) < cache_ttl then some "v" else none :=
  c5_set_get_ttl CacheState.empty "k" "v" 0 10 true
    (fun p hp => by simp [CacheState.empty] at hp)

/-! ## C10: promotions never extend a record's lifetime -/

theorem goodAt_set {α : Type} (s : CacheState α) (k : String) (v : α) (T : Int) :
    (CacheState.set s k v T true).goodAt k v T := by
  simp [CacheState.set, CacheState.goodAt]

theorem goodAt_update_mem {α : Type} {s : CacheState α} {k : String} {v : α}
    {T : Int} (h : s.goodAt k v T) (k' : String) (x : Option (α × Int))
    (hx : k = k' → x = none ∨ x = some (v, T)) :
    CacheState.goodAt
      { s with memory_cache := fun kk => if kk = k' then x else s.memory_cache kk }
      k v T := by
  refine ⟨h.1, ?_⟩
  by_cases hk : k = k'
  · simpa [hk] using hx hk
  · simpa [hk] using h.2

theorem goodAt_diskGet {α : Type} {s : CacheState α} {k : String} {v : α}
    {T : Int} (h : s.goodAt k v T) (k' : String) (t : Int) :
    ((CacheState.diskGet s k' t).2).goodAt k v T := by
  unfold CacheState.diskGet
  cases hd : s.disk_cache k' with
  | none => exact h
  | some p =>
    obtain ⟨pv, pt⟩ := p
    by_cases hfresh : t - pt < cache_ttl
    · simp only [if_pos hfresh]
      apply goodAt_update_mem h
      intro hk
      right
      rw [← hk] at hd
      rw [h.1] at hd
      injection hd with hd'
      rw [← hd']
    · simp only [if_neg hfresh]
      exact h

theorem goodAt_get {α : Type} {s : CacheState α} {k : String} {v : α}
    {T : Int} (h : s.goodAt k v T) (k' : String) (t : Int) :
    ((CacheState.get s k' t).2).goodAt k v T := by
  unfold CacheState.get
  cases hm : s.memory_cache k' with
  | none => exact goodAt_diskGet h k' t
  | some p =>
    obtain ⟨pv, pt⟩ := p
    by_cases hfresh : t - pt < cache_ttl
    · simp only [if_pos hfresh]
      exact h
    · simp only [if_neg hfresh]
      exact goodAt_diskGet (goodAt_update_mem h k' none (fun _ => Or.inl rfl)) k' t

theorem goodAt_applyGets {α : Type} {s : CacheState α} {k : String} {v : α}
    {T : Int} (h : s.goodAt k v T) (ops : List (String × Int)) :
    (CacheState.applyGets s ops).goodAt k v T := by
  induction ops generalizing s with
  | nil => exact h
  | cons op rest ih => exact ih (goodAt_get h op.1 op.2)

theorem get_of_goodAt {α : Type} {s : CacheState α} {k : String} {v : α}
    {T : Int} (h : s.goodAt k v T) (t : Int) :
    (CacheState.get s k t).1 = if t - T < cache_ttl then some v else none := by
  obtain ⟨hd, hm⟩ := h
  rcases hm with hm | hm
  · by_cases hfresh : t - T < cache_ttl <;>
      simp [CacheState.get, CacheState.diskGet, hm, hd, hfresh]
  · by_cases hfresh : t - T < cache_ttl <;>
      simp [CacheState.get, CacheState.diskGet, hm, hd, hfresh]

/-- C10: after `set(k, v)` at time `T` (with the disk write succeeding),
any sequence of `get` calls — on any keys, at any times, each possibly
deleting a stale memory record or promoting the disk record into memory —
leaves the behaviour of `get(k)` unchanged: it serves `v` exactly when
`t - T < TTL`, because a promotion keeps the original write timestamp. -/
theorem c10_promotion_keeps_write_time {α : Type} (s : CacheState α)
    (k : String) (v : α) (T : Int) (ops : List (String × Int)) (t : Int) :
    (CacheState.get
        (CacheState.applyGets (CacheState.set s k v T true) ops) k t).1
      = if t - T < cache_ttl then some v else none :=
  get_of_goodAt (goodAt_applyGets (goodAt_set s k v T) ops) t

/-! ## C8: fuzzy-mode search characterization -/

theorem getD_indexOf_map {α β : Type} [BEq β] [LawfulBEq β] (f : α → β)
    (l : List α) (hnd : (l.map f).Nodup) {e : α} (he : e ∈ l) (d : α) :
    l.getD ((l.map f).indexOf (f e)) d = e := by
  induction l with
  | nil => cases he
  | cons x xs ih =>
    rw [List.map_cons] at hnd
    have hx_notin : f x ∉ xs.map f := (List.nodup_cons.mp hnd).1
    have hnd' : (xs.map f).Nodup := (List.nodup_cons.mp hnd).2
    cases List.mem_cons.mp he with
    | inl h =>
      subst h
      simp [List.map_cons, List.indexOf_cons]
    | inr h =>
      have hne : (f x == f e) = false := by
        rw [beq_eq_false_iff_ne]
        intro hc
        exact hx_notin (hc ▸ List.mem_map_of_mem f h)
      rw [List.map_cons, List.indexOf_cons, hne]
      simpa [Bool.cond_false] using ih hnd' h

theorem filterMap_congr_mem {α β : Type} {f g : α → Option β} {l : List α}
    (h : ∀ a ∈ l, f a = g a) : l.filterMap f = l.filterMap g := by
  induction l with
  | nil => rfl
  | cons x xs ih =>
    rw [List.filterMap_cons, List.filterMap_cons, h x (List.mem_cons_self x xs),
      ih (fun a ha => h a (List.mem_cons_of_mem x ha))]

theorem filterMap_guard {α β : Type} (p : α → Prop) [DecidablePred p]
    (u : α → β) (l : List α) :
    l.filterMap (fun a => if p a then some (u a) else none)
      = (l.filter (fun a => decide (p a))).map u := by
  induction l with
  | nil => rfl
  | cons x xs ih => by_cases hx : p x <;> simp [hx, ih]

theorem fuzzy_search_sorted (sim : String → String → Int) (query : String)
    (entries : List DocEntry) (threshold : Int) :
    List.Sorted FuzzySearchEngine.scoreGe
      (FuzzySearchEngine.fuzzy_search sim query entries threshold) := by
  by_cases hemp : entries.isEmpty
  · simp [FuzzySearchEngine.fuzzy_search, hemp]
  · simp only [FuzzySearchEngine.fuzzy_search, if_neg hemp]
    exact List.sorted_insertionSort FuzzySearchEngine.scoreGe _

theorem fuzzy_search_perm (sim : String → String → Int) (query : String)
    (entries : List DocEntry) (threshold : Int)
    (hnd : (entries.map FuzzySearchEngine.searchable_string).Nodup) :
    (FuzzySearchEngine.fuzzy_search sim query entries threshold).Perm
      ((entries.filter (fun e =>
          decide (threshold ≤ sim query (FuzzySearchEngine.searchable_string e)))).map
        (fun e =>
          { e with score := sim query (FuzzySearchEngine.searchable_string e) })) := by
  by_cases hemp : entries.isEmpty
  · have h0 : entries = [] := List.isEmpty_iff.mp hemp
    subst h0
    simp [FuzzySearchEngine.fuzzy_search]
  · simp only [FuzzySearchEngine.fuzzy_search, FuzzySearchEngine.process_extract,
      if_neg hemp]
    have hlen : (List.insertionSort FuzzySearchEngine.pairGe
        ((entries.map FuzzySearchEngine.searchable_string).map
          (fun c => (c, sim query c)))).length = entries.length := by
      rw [(List.perm_insertionSort _ _).length_eq]
      simp
    rw [List.take_of_length_le (le_of_eq hlen)]
    refine (List.perm_insertionSort _ _).trans ?_
    refine ((List.perm_insertionSort FuzzySearchEngine.pairGe _).filterMap _).trans ?_
    rw [List.map_map, List.filterMap_map]
    have heq : List.filterMap
        ((fun ms : String × Int =>
          if threshold ≤ ms.2 then
            some { entries.getD
                ((entries.map FuzzySearchEngine.searchable_string).indexOf ms.1)
                default with score := ms.2 }
          else none)
          ∘ ((fun c => (c, sim query c)) ∘ FuzzySearchEngine.searchable_string))
        entries
        = (entries.filter (fun e =>
            decide (threshold ≤ sim query (FuzzySearchEngine.searchable_string e)))).map
          (fun e =>
            { e with score := sim query (FuzzySearchEngine.searchable_string e) }) := by
      rw [← filterMap_guard
        (fun e => threshold ≤ sim query (FuzzySearchEngine.searchable_string e))]
      apply filterMap_congr_mem
      intro e he
      simp only [Function.comp]
      by_cases hth : threshold ≤ sim query (FuzzySearchEngine.searchable_string e)
      · simp only [if_pos hth, Option.some.injEq]
        rw [getD_indexOf_map FuzzySearchEngine.searchable_string entries hnd he]
      · simp [hth]
    rw [heq]

/-- C8 counterexample: `dupE2`'s similarity meets the threshold, yet no
entry of the result carries its path — `searchable.index(match)` resolves
every duplicated searchable string to its first index, so the result holds
`dupE1` twice and `dupE2` never, refuting "returns exactly those input
entries whose similarity score is at least the threshold". -/
theorem c8_duplicate_searchable_drops_entry :
    (60 : Int) ≤ simSubstr "a" (FuzzySearchEngine.searchable_string dupE2)
    ∧ dupE2 ∈ [dupE1, dupE2]
    ∧ (∀ e ∈ FuzzySearchEngine.fuzzy_search simSubstr "a" [dupE1, dupE2] 60,
        e.path ≠ dupE2.path)
    ∧ (FuzzySearchEngine.fuzzy_search simSubstr "a" [dupE1, dupE2] 60).length = 2 := by
  decide

/-- C8 amended: provided the entries' searchable strings are pairwise
distinct, fuzzy-mode search returns exactly those input entries whose
similarity score against the query is at least the threshold, each with
its score field set to that similarity (a permutation of the thresholded
entries), ordered descending by score; and for an empty input list it
returns empty for every matcher (the matcher is never consulted).  With
duplicated searchable strings every match resolves to the first entry
holding that string. -/
theorem c8_fuzzy_search_threshold_sorted (sim : String → String → Int)
    (query : String) (entries : List DocEntry) (threshold : Int)
    (hnd : (entries.map FuzzySearchEngine.searchable_string).Nodup) :
    (FuzzySearchEngine.fuzzy_search sim query entries threshold).Perm
      ((entries.filter (fun e =>
          decide (threshold ≤ sim query (FuzzySearchEngine.searchable_string e)))).map
        (fun e =>
          { e with score := sim query (FuzzySearchEngine.searchable_string e) }))
    ∧ List.Sorted FuzzySearchEngine.scoreGe
        (FuzzySearchEngine.fuzzy_search sim query entries threshold)
    ∧ FuzzySearchEngine.fuzzy_search sim query [] threshold = [] :=
  ⟨fuzzy_search_perm sim query entries threshold hnd,
   fuzzy_search_sorted sim query entries threshold, rfl⟩

/-- C8 witness: the amended theorem applied to the concrete scorer
`simSubstr`, query `"a"` and the singleton list `[dupE1]` (its searchable
strings are trivially distinct). -/
theorem c8_witness :
    (FuzzySearchEngine.fuzzy_search simSubstr "a" [dupE1] 60).Perm
      (([dupE1].filter (fun e =>
          decide ((60 : Int) ≤ simSubstr "a" (FuzzySearchEngine.searchable_string e)))).map
        (fun e =>
          { e with score := simSubstr "a" (FuzzySearchEngine.searchable_string e) }))
    ∧ List.Sorted FuzzySearchEngine.scoreGe
        (FuzzySearchEngine.fuzzy_search simSubstr "a" [dupE1] 60)
    ∧ FuzzySearchEngine.fuzzy_search simSubstr "a" [] 60 = [] :=
  c8_fuzzy_search_threshold_sorted simSubstr "a" [dupE1] 60 (by decide)

/-! ## C9: content never enters the cache -/

theorem contentFreeCache_empty : contentFreeCache CacheState.empty := by
  constructor <;> intro k p hp <;> simp [CacheState.empty] at hp

theorem contentFreeCache_diskGet {s : CacheState (List ResultRecord)}
    (h : contentFreeCache s) (k : String) (t : Int) :
    contentFreeCache (CacheState.diskGet s k t).2
    ∧ (∀ v, (CacheState.diskGet s k t).1 = some v → contentFreeList v) := by
  unfold CacheState.diskGet
  cases hd : s.disk_cache k with
  | none => exact ⟨h, by intro v hv; simp at hv⟩
  | some p =>
    obtain ⟨pv, pt⟩ := p
    by_cases hfresh : t - pt < cache_ttl
    · simp only [if_pos hfresh]
      refine ⟨⟨?_, h.2⟩, ?_⟩
      · intro k' p' hp'
        dsimp only at hp'
        by_cases hk : k' = k
        · rw [if_pos hk] at hp'
          injection hp' with hp'
          subst hp'
          exact h.2 k (pv, pt) hd
        · rw [if_neg hk] at hp'
          exact h.1 k' p' hp'
      · intro v hv
        injection hv with hv
        subst hv
        exact h.2 k (pv, pt) hd
    · simp only [if_neg hfresh]
      exact ⟨h, by intro v hv; simp at hv⟩

theorem contentFreeCache_get {s : CacheState (List ResultRecord)}
    (h : contentFreeCache s) (k : String) (t : Int) :
    contentFreeCache (CacheState.get s k t).2
    ∧ (∀ v, (CacheState.get s k t).1 = some v → contentFreeList v) := by
  unfold CacheState.get
  cases hm : s.memory_cache k with
  | none => exact contentFreeCache_diskGet h k t
  | some p =>
    obtain ⟨pv, pt⟩ := p
    by_cases hfresh : t - pt < cache_ttl
    · simp only [if_pos hfresh]
      refine ⟨h, ?_⟩
      intro v hv
      injection hv with hv
      subst hv
      exact h.1 k (pv, pt) hm
    · simp only [if_neg hfresh]
      have hdel : contentFreeCache
          { s with memory_cache := fun kk => if kk = k then none else s.memory_cache kk } := by
        refine ⟨?_, h.2⟩
        intro k' p' hp'
        dsimp only at hp'
        by_cases hk : k' = k
        · rw [if_pos hk] at hp'; cases hp'
        · rw [if_neg hk] at hp'
          exact h.1 k' p' hp'
      exact contentFreeCache_diskGet hdel k t

theorem contentFreeCache_set {s : CacheState (List ResultRecord)}
    (h : contentFreeCache s) {v : List ResultRecord} (hv : contentFreeList v)
    (k : String) (t : Int) (diskOk : Bool) :
    contentFreeCache (CacheState.set s k v t diskOk) := by
  constructor
  · intro k' p' hp'
    simp only [CacheState.set] at hp'
    by_cases hk : k' = k
    · rw [if_pos hk] at hp'
      injection hp' with hp'
      subst hp'
      exact hv
    · rw [if_neg hk] at hp'
      exact h.1 k' p' hp'
  · intro k' p' hp'
    simp only [CacheState.set] at hp'
    cases diskOk with
    | true =>
      simp only [if_pos] at hp'
      by_cases hk : k' = k
      · rw [if_pos hk] at hp'
        injection hp' with hp'
        subst hp'
        exact hv
      · rw [if_neg hk] at hp'
        exact h.2 k' p' hp'
    | false =>
      simp only [Bool.false_eq_true, if_neg] at hp'
      exact h.2 k' p' hp'

theorem getD_pred {α : Type} (P : α → Prop) (d : α) (hd : P d) :
    ∀ (l : List α), (∀ e ∈ l, P e) → ∀ i, P (l.getD i d) := by
  intro l
  induction l with
  | nil => intro _ i; simpa [List.getD] using hd
  | cons x xs ih =>
    intro h i
    cases i with
    | zero => simpa using h x (List.mem_cons_self x xs)
    | succ n =>
      rw [List.getD_cons_succ]
      exact ih (fun e he => h e (List.mem_cons_of_mem _ he)) n

theorem searchIndexBranch_content (d : String) (db : SearchIndexDB) (q : String)
    (limit : Nat) : ∀ e ∈ searchIndexBranch d db q limit, e.content = none := by
  intro e he
  obtain ⟨r, _, hre⟩ := List.mem_map.mp he
  subst hre
  rfl

theorem coreDataJoinBranch_content (d : String) (rows : List ZRow) (q : String)
    (limit : Nat) : ∀ e ∈ coreDataJoinBranch d rows q limit, e.content = none := by
  intro e he
  obtain ⟨r, _, hfr⟩ := List.mem_filterMap.mp he
  cases hn : r.name with
  | none => rw [hn] at hfr; simp at hfr
  | some nm =>
    rw [hn] at hfr
    by_cases hnm : nm = ""
    · subst hnm; simp at hfr
    · simp only [hnm, if_neg, beq_iff_eq, if_false, Option.some.injEq] at hfr
      subst hfr
      rfl

theorem coreDataFallbackBranch_content (d : String) (rows : List ZRow) (q : String)
    (limit : Nat) : ∀ e ∈ coreDataFallbackBranch d rows q limit, e.content = none := by
  intro e he
  obtain ⟨r, _, hfr⟩ := List.mem_filterMap.mp he
  cases hn : r.name with
  | none => rw [hn] at hfr; simp at hfr
  | some nm =>
    rw [hn] at hfr
    by_cases hnm : nm = ""
    · subst hnm; simp at hfr
    · simp only [hnm, if_neg, beq_iff_eq, if_false, Option.some.injEq] at hfr
      subst hfr
      rfl

theorem docsetSearch_content (q : String) (limit : Nat) (d : DocsetEntry) :
    ∀ e ∈ docsetSearch q limit d, e.content = none := by
  intro e he
  cases hdb : d.db with
  | searchIndex db =>
    simp only [docsetSearch, hdb] at he
    exact searchIndexBranch_content d.name db q limit e he
  | coreData rows jf ff =>
    simp only [docsetSearch, hdb, coreDataBranch] at he
    cases jf with
    | true =>
      cases ff with
      | true => simp at he
      | false =>
        simp only [if_true, if_false, Bool.false_eq_true] at he
        exact coreDataFallbackBranch_content d.name rows q limit e he
    | false =>
      simp only [Bool.false_eq_true, if_false] at he
      exact coreDataJoinBranch_content d.name rows q limit e he
  | unknownSchema => simp [docsetSearch, hdb] at he
  | dbError => simp [docsetSearch, hdb] at he

theorem rank_results_content {entries : List DocEntry} (q : String)
    (h : ∀ e ∈ entries, e.content = none) :
    ∀ e ∈ FuzzySearchEngine.rank_results entries q, e.content = none := by
  intro e he
  rw [FuzzySearchEngine.rank_results] at he
  obtain ⟨e', he', heq⟩ := List.mem_map.mp ((List.perm_insertionSort _ _).mem_iff.mp he)
  subst heq
  exact h e' he'

theorem fuzzy_search_content (sim : String → String → Int) (q : String)
    (th : Int) {entries : List DocEntry} (h : ∀ e ∈ entries, e.content = none) :
    ∀ e ∈ FuzzySearchEngine.fuzzy_search sim q entries th, e.content = none := by
  intro e he
  by_cases hemp : entries.isEmpty
  · simp [FuzzySearchEngine.fuzzy_search, hemp] at he
  · simp only [FuzzySearchEngine.fuzzy_search, if_neg hemp] at he
    obtain ⟨ms, _, hfe⟩ :=
      List.mem_filterMap.mp ((List.perm_insertionSort _ _).mem_iff.mp he)
    by_cases hth : th ≤ ms.2
    · rw [if_pos hth] at hfe
      injection hfe with hfe
      subst hfe
      exact getD_pred (fun x => x.content = none) default rfl entries h _
    · rw [if_neg hth] at hfe; cases hfe

theorem toRecord_content {e : DocEntry} (h : e.content = none) :
    (toRecord e).content = none := by
  simp [toRecord, h, pyTruthy]

theorem ranked_limited_content (inv : SearchInv) (all_entries : List DocEntry)
    (h : ∀ e ∈ all_entries, e.content = none) :
    ∀ e ∈ (if inv.use_fuzzy then
          FuzzySearchEngine.fuzzy_search inv.sim inv.query all_entries 60
        else
          FuzzySearchEngine.rank_results all_entries inv.query).take inv.limit,
      e.content = none := by
  intro e he
  have he' := List.mem_of_mem_take he
  by_cases hf : inv.use_fuzzy
  · rw [if_pos hf] at he'
    exact fuzzy_search_content inv.sim inv.query 60 h e he'
  · rw [if_neg hf] at he'
    exact rank_results_content inv.query h e he'

theorem map_toRecord_content {entries : List DocEntry}
    (h : ∀ e ∈ entries, e.content = none) :
    contentFreeList (entries.map toRecord) := by
  intro r hr
  obtain ⟨e, he, hre⟩ := List.mem_map.mp hr
  subst hre
  exact toRecord_content (h e he)

theorem search_docset_fresh_cf (c1 : CacheState (List ResultRecord)) (key : String)
    (inv : SearchInv) (hc : contentFreeCache c1) :
    contentFreeCache (search_docset_fresh c1 key inv).2
    ∧ (inv.include_content = false →
        contentFreeList (search_docset_fresh c1 key inv).1) := by
  unfold search_docset_fresh
  dsimp only
  split
  · exact ⟨hc, fun _ r hr => absurd hr (List.not_mem_nil r)⟩
  · split
    · constructor
      · apply contentFreeCache_set hc
        intro r hr
        simp at hr
      · intro _ r hr
        simp at hr
    · split
      · rename_i htrue
        refine ⟨hc, fun hfalse => ?_⟩
        rw [hfalse] at htrue
        cases htrue
      · have hentries : ∀ (dss : List DocsetEntry),
            ∀ e ∈ dss.flatMap (docsetSearch inv.query inv.limit), e.content = none := by
          intro dss e he
          obtain ⟨d, _, hed⟩ := List.mem_flatMap.mp he
          exact docsetSearch_content inv.query inv.limit d e hed
        constructor
        · apply contentFreeCache_set hc
          exact map_toRecord_content (ranked_limited_content inv _ (hentries _))
        · intro _
          exact map_toRecord_content (ranked_limited_content inv _ (hentries _))

theorem search_docset_cf (c : CacheState (List ResultRecord)) (inv : SearchInv)
    (hc : contentFreeCache c) :
    contentFreeCache (search_docset c inv).2
    ∧ (inv.include_content = false → contentFreeList (search_docset c inv).1) := by
  unfold search_docset
  dsimp only
  split
  · rename_i v heq
    split
    · have hget := contentFreeCache_get hc
        (search_cache_key inv.query inv.docset_name inv.limit inv.include_content
          inv.use_fuzzy) inv.now
      exact ⟨hget.1, fun _ => hget.2 v heq⟩
    · exact search_docset_fresh_cf _ _ inv (contentFreeCache_get hc _ inv.now).1
  · exact search_docset_fresh_cf _ _ inv (contentFreeCache_get hc _ inv.now).1

theorem run_search_docset_cf (invs : List SearchInv) :
    ∀ c : CacheState (List ResultRecord), contentFreeCache c →
      contentFreeCache (run_search_docset c invs).2
      ∧ ∀ pr ∈ (run_search_docset c invs).1, pr.1 = false → contentFreeList pr.2 := by
  induction invs with
  | nil =>
    intro c hc
    refine ⟨hc, ?_⟩
    intro pr hpr
    simp [run_search_docset] at hpr
  | cons inv rest ih =>
    intro c hc
    obtain ⟨h1, h2⟩ := search_docset_cf c inv hc
    obtain ⟨h3, h4⟩ := ih _ h1
    refine ⟨by simpa [run_search_docset] using h3, ?_⟩
    intro pr hpr hfalse
    simp only [run_search_docset] at hpr
    rcases List.mem_cons.mp hpr with hpr | hpr
    · subst hpr
      exact h2 hfalse
    · exact h4 pr hpr hfalse

/-- C9: starting from an empty cache, over every sequence of
`search_docset` invocations every payload stored in either cache tier is
content-free, and every response to an `include_content=False` request —
whether cache-served or freshly computed — is content-free; in particular
the same query issued first with `include_content=True` and then with
`include_content=False` never yields `content` in the second response. -/
theorem c9_content_never_cached (invs : List SearchInv) :
    contentFreeCache (run_search_docset CacheState.empty invs).2
    ∧ ∀ pr ∈ (run_search_docset CacheState.empty invs).1,
        pr.1 = false → contentFreeList pr.2 :=
  run_search_docset_cf invs CacheState.empty contentFreeCache_empty
